import Mathlib

/-!
Verification of the go-api-gateway request pipeline.

Shallow embedding of the gateway's core components, translated from the Go
source: the per-route circuit breaker (`internal/mw` circuit-breaker file),
the concurrency semaphore (`internal/mw/concurrency.go`), the router
(`internal/proxy/router.go`), the rate-limiter backends
(`internal/ratelimit`), the client-IP resolver and rate-limit middleware
(`internal/mw`), the status-capturing writer
(`internal/httpx/status_writer.go`), the CIDR set (`internal/netx/cidrset.go`)
and startup config validation (`cmd/gateway/main.go`).

Time is modelled as integer nanoseconds (Go `time.Time` / `time.Duration`)
for the breaker, and as rational seconds / milliseconds for the token
buckets (Go `float64`; the arithmetic performed by the code on the inputs we
consider is exact, so rationals are a faithful carrier).
-/

namespace APIGW

/-! ## Circuit breaker (mw.CircuitBreaker) -/

/-- Breaker states, mirroring `BreakerState` (`closed`, `open`, `half_open`). -/
inductive BreakerState where
  | closed
  | opened
  | halfOpen
deriving DecidableEq, Repr

/-- `mw.BreakerConfig`. `failureThreshold` and `halfOpenMaxInFlight` are Go
`int`s that are positive after `NewCircuitBreaker` defaulting, modelled as
`Nat`; `openDuration` is a `time.Duration` in nanoseconds. -/
structure BreakerConfig where
  enabled : Bool
  failureThreshold : Nat
  openDuration : Int
  halfOpenMaxInFlight : Nat
deriving DecidableEq, Repr

/-- `mw.CircuitBreaker`: the mutable fields guarded by `b.mu`, plus the
immutable config. `opensAt` is a timestamp in nanoseconds. -/
structure CircuitBreaker where
  cfg : BreakerConfig
  state : BreakerState
  fails : Nat
  opensAt : Int
  halfInFlight : Nat
deriving DecidableEq, Repr

/-- `mw.NewCircuitBreaker`: non-positive thresholds and durations are
replaced by defaults (5 failures, 10s, 1 probe); initial state is CLOSED. -/
def NewCircuitBreaker (cfg : BreakerConfig) : CircuitBreaker :=
  let cfg := if cfg.failureThreshold = 0 then { cfg with failureThreshold := 5 } else cfg
  let cfg := if cfg.openDuration ≤ 0 then { cfg with openDuration := 10000000000 } else cfg
  let cfg := if cfg.halfOpenMaxInFlight = 0 then { cfg with halfOpenMaxInFlight := 1 } else cfg
  { cfg := cfg, state := .closed, fails := 0, opensAt := 0, halfInFlight := 0 }

/-- The HALF_OPEN branch of `CircuitBreaker.allowLocked` (lines 190-195):
reject with a 1s retry hint when the probe budget is exhausted, otherwise
admit and increment `halfInFlight`. Factored out because the OPEN branch
re-evaluates the same logic after transitioning (the Go code recurses). -/
def halfOpenAllow (b : CircuitBreaker) : CircuitBreaker × Bool × Int :=
  if b.halfInFlight ≥ b.cfg.halfOpenMaxInFlight then
    (b, false, 1000000000)
  else
    ({ b with halfInFlight := b.halfInFlight + 1 }, true, 0)

/-- `CircuitBreaker.allowLocked(now)`: returns the updated breaker, whether
the arrival is admitted, and the retry-after duration (ns). -/
def allowLocked (b : CircuitBreaker) (now : Int) : CircuitBreaker × Bool × Int :=
  if b.cfg.enabled = false then (b, true, 0)
  else
    match b.state with
    | .closed => (b, true, 0)
    | .opened =>
        if now - b.opensAt ≥ b.cfg.openDuration then
          halfOpenAllow { b with state := .halfOpen, fails := 0, halfInFlight := 0 }
        else
          let rem := b.cfg.openDuration - (now - b.opensAt)
          (b, false, if rem < 0 then 0 else rem)
    | .halfOpen => halfOpenAllow b

/-- `CircuitBreaker.doneLocked(success)`; the Go code reads `time.Now()`
when it records `opensAt`, passed here as `now`. -/
def doneLocked (b : CircuitBreaker) (success : Bool) (now : Int) : CircuitBreaker :=
  if b.cfg.enabled = false then b
  else
    match b.state with
    | .closed =>
        if success then { b with fails := 0 }
        else
          let b1 := { b with fails := b.fails + 1 }
          if b1.fails ≥ b1.cfg.failureThreshold then
            { b1 with state := .opened, opensAt := now }
          else b1
    | .halfOpen =>
        let b1 := if b.halfInFlight > 0 then { b with halfInFlight := b.halfInFlight - 1 } else b
        if success then { b1 with state := .closed, fails := 0 }
        else { b1 with state := .opened, opensAt := now, fails := b1.cfg.failureThreshold }
    | .opened => b

/-! ## Breaker operation sequences (for the HALF_OPEN in-flight invariant) -/

/-- One breaker-relevant event: an arrival (decision point of `allowLocked`)
or a completed request (`doneLocked`). -/
inductive BreakerOp where
  | arrival (now : Int)
  | complete (success : Bool) (now : Int)
deriving DecidableEq, Repr

def breakerStep (b : CircuitBreaker) : BreakerOp → CircuitBreaker
  | .arrival now => (allowLocked b now).1
  | .complete success now => doneLocked b success now

def breakerRun (b : CircuitBreaker) (ops : List BreakerOp) : CircuitBreaker :=
  ops.foldl breakerStep b

/-- The invariant of claim C6: while HALF_OPEN, the probe counter is bounded
by the configured maximum. -/
def HalfOpenBounded (b : CircuitBreaker) : Prop :=
  b.state = .halfOpen → b.halfInFlight ≤ b.cfg.halfOpenMaxInFlight

lemma halfOpenAllow_cfg (b : CircuitBreaker) : (halfOpenAllow b).1.cfg = b.cfg := by
  unfold halfOpenAllow
  split <;> rfl

lemma allowLocked_cfg (b : CircuitBreaker) (now : Int) :
    (allowLocked b now).1.cfg = b.cfg := by
  obtain ⟨c, st, f, o, h⟩ := b
  cases st <;> simp only [allowLocked, halfOpenAllow] <;> split_ifs <;> rfl

lemma doneLocked_cfg (b : CircuitBreaker) (success : Bool) (now : Int) :
    (doneLocked b success now).cfg = b.cfg := by
  obtain ⟨c, st, f, o, h⟩ := b
  cases st <;> simp only [doneLocked] <;> split_ifs <;> rfl

lemma breakerStep_cfg (b : CircuitBreaker) (op : BreakerOp) :
    (breakerStep b op).cfg = b.cfg := by
  cases op with
  | arrival now => exact allowLocked_cfg b now
  | complete s now => exact doneLocked_cfg b s now

lemma halfOpenAllow_bounded (b : CircuitBreaker) (hb : HalfOpenBounded b) :
    HalfOpenBounded (halfOpenAllow b).1 := by
  obtain ⟨c, st, f, o, h⟩ := b
  unfold HalfOpenBounded at *
  simp only [halfOpenAllow] at *
  split_ifs with h1 <;> intro hs <;> simp_all <;> try omega

lemma allowLocked_bounded (b : CircuitBreaker) (now : Int) (hb : HalfOpenBounded b) :
    HalfOpenBounded (allowLocked b now).1 := by
  obtain ⟨c, st, f, o, h⟩ := b
  unfold HalfOpenBounded at *
  cases st <;> simp only [allowLocked, halfOpenAllow] at * <;>
    split_ifs <;> intro hs <;> simp_all <;> omega

lemma doneLocked_bounded (b : CircuitBreaker) (success : Bool) (now : Int)
    (hb : HalfOpenBounded b) : HalfOpenBounded (doneLocked b success now) := by
  obtain ⟨c, st, f, o, h⟩ := b
  unfold HalfOpenBounded at *
  cases st <;> simp only [doneLocked] at * <;>
    split_ifs <;> intro hs <;> simp_all

lemma breakerStep_bounded (b : CircuitBreaker) (op : BreakerOp)
    (hb : HalfOpenBounded b) : HalfOpenBounded (breakerStep b op) := by
  cases op with
  | arrival now => exact allowLocked_bounded b now hb
  | complete s now => exact doneLocked_bounded b s now hb

lemma breakerRun_bounded (ops : List BreakerOp) (b : CircuitBreaker)
    (hb : HalfOpenBounded b) : HalfOpenBounded (breakerRun b ops) := by
  induction ops generalizing b with
  | nil => exact hb
  | cons op rest ih => exact ih _ (breakerStep_bounded b op hb)

/-! ## Claim C1: breaker transition table -/

/-- Claim C1: the per-route circuit breaker follows the three-state
transition table. In CLOSED a success resets `fails` and a failure
increments it, opening the breaker (with `opensAt := now`) when the
threshold is reached; in OPEN an early arrival is rejected and an arrival
at/after `openDuration` re-evaluates as a fresh HALF_OPEN breaker with
counters reset; in HALF_OPEN a completed probe success closes the breaker
with `fails := 0` and `halfInFlight` decremented, and a completed probe
failure re-opens it with `opensAt := now` and `fails := threshold`. -/
theorem breaker_transition_table (b : CircuitBreaker) (now : Int)
    (he : b.cfg.enabled = true) :
    (b.state = .closed → doneLocked b true now =
        { b with fails := 0 }) ∧
    (b.state = .closed → b.fails + 1 < b.cfg.failureThreshold →
        doneLocked b false now = { b with fails := b.fails + 1 }) ∧
    (b.state = .closed → b.fails + 1 ≥ b.cfg.failureThreshold →
        doneLocked b false now =
        { b with state := .opened, fails := b.fails + 1, opensAt := now }) ∧
    (b.state = .opened → now - b.opensAt < b.cfg.openDuration →
        (allowLocked b now).1 = b ∧ (allowLocked b now).2.1 = false) ∧
    (b.state = .opened → now - b.opensAt ≥ b.cfg.openDuration →
        allowLocked b now =
          allowLocked { b with state := .halfOpen, fails := 0, halfInFlight := 0 } now ∧
        (allowLocked b now).1.state = .halfOpen) ∧
    (b.state = .halfOpen → doneLocked b true now =
        { b with state := .closed, fails := 0, halfInFlight := b.halfInFlight - 1 }) ∧
    (b.state = .halfOpen → doneLocked b false now =
        { b with state := .opened, fails := b.cfg.failureThreshold,
                 opensAt := now, halfInFlight := b.halfInFlight - 1 }) := by
  obtain ⟨c, st, f, o, h⟩ := b
  simp only at he
  refine ⟨?_, ?_, ?_, ?_, ?_, ?_, ?_⟩ <;> intro hst <;> simp only at hst <;> subst hst
  · simp [doneLocked, he]
  · intro hlt
    simp only at hlt
    simp [doneLocked, he]
    omega
  · intro hge
    simp only at hge
    simp [doneLocked, he, hge]
  · intro hlt
    simp only at hlt
    have hcond : ¬ (now - o ≥ c.openDuration) := by omega
    constructor <;> simp [allowLocked, he, hcond]
  · intro hge
    simp only at hge
    constructor
    · simp [allowLocked, he, hge]
    · simp only [allowLocked, he, Bool.true_eq_false, if_false, hge, ge_iff_le, if_true]
      unfold halfOpenAllow
      split_ifs <;> rfl
  · rcases Nat.eq_zero_or_pos h with h0 | hpos
    · subst h0
      simp [doneLocked, he]
    · simp [doneLocked, he, hpos]
  · rcases Nat.eq_zero_or_pos h with h0 | hpos
    · subst h0
      simp [doneLocked, he]
    · simp [doneLocked, he, hpos]

/-- Witness for C1: a concrete HALF_OPEN breaker with one probe in flight
whose probe failure re-opens it at the threshold. -/
theorem breaker_transition_table_witness :
    doneLocked ⟨⟨true, 3, 50, 1⟩, .halfOpen, 0, 7, 1⟩ false 99 =
      ⟨⟨true, 3, 50, 1⟩, .opened, 3, 99, 0⟩ :=
  ((breaker_transition_table ⟨⟨true, 3, 50, 1⟩, .halfOpen, 0, 7, 1⟩ 99 rfl).2.2.2.2.2.2
    rfl).trans (by rfl)

/-! ## Claim C6: HALF_OPEN probe bound -/

/-- Claim C6: starting from a freshly constructed breaker, for every
sequence of arrivals and probe completions the counter `halfInFlight`
never exceeds `halfOpenMaxInFlight` while the state is HALF_OPEN; moreover
an arrival in HALF_OPEN (breaker enabled) is admitted, incrementing the
counter, exactly when `halfInFlight` is below the maximum, and is rejected
(with a 1s retry hint, surfaced as 503 by the middleware) otherwise. -/
theorem half_open_in_flight_bounded (cfg : BreakerConfig) (ops : List BreakerOp)
    (b : CircuitBreaker) (now : Int)
    (hb : b.cfg.enabled = true) (hs : b.state = .halfOpen) :
    HalfOpenBounded (breakerRun (NewCircuitBreaker cfg) ops) ∧
    ((allowLocked b now).2.1 = true ↔ b.halfInFlight < b.cfg.halfOpenMaxInFlight) ∧
    (b.halfInFlight < b.cfg.halfOpenMaxInFlight →
        (allowLocked b now).1 = { b with halfInFlight := b.halfInFlight + 1 }) ∧
    (b.halfInFlight ≥ b.cfg.halfOpenMaxInFlight →
        allowLocked b now = (b, false, 1000000000)) := by
  refine ⟨breakerRun_bounded ops _ ?_, ?_, ?_, ?_⟩
  · intro hmem
    simp [NewCircuitBreaker] at hmem
  · obtain ⟨c, st, f, o, h⟩ := b
    simp only at hb hs
    subst hs
    simp only [allowLocked, hb, Bool.true_eq_false, if_false, halfOpenAllow]
    split_ifs with h1 <;> simp <;> omega
  · intro hlt
    obtain ⟨c, st, f, o, h⟩ := b
    simp only at hb hs hlt
    subst hs
    have hcond : ¬ (h ≥ c.halfOpenMaxInFlight) := by omega
    simp [allowLocked, hb, halfOpenAllow, hcond]
  · intro hge
    obtain ⟨c, st, f, o, h⟩ := b
    simp only at hb hs hge
    subst hs
    simp [allowLocked, hb, halfOpenAllow, hge]

/-- Witness for C6 at a concrete breaker: with the probe budget exhausted
(1 of 1 in flight) the arrival is rejected and the counter stays at 1. -/
theorem half_open_in_flight_bounded_witness :
    allowLocked ⟨⟨true, 3, 50, 1⟩, .halfOpen, 0, 7, 1⟩ 60 =
      (⟨⟨true, 3, 50, 1⟩, .halfOpen, 0, 7, 1⟩, false, 1000000000) :=
  (half_open_in_flight_bounded ⟨true, 3, 50, 1⟩ []
      ⟨⟨true, 3, 50, 1⟩, .halfOpen, 0, 7, 1⟩ 60 rfl rfl).2.2.2 (by decide)

/-! ## Status-capturing writer (httpx.StatusWriter) -/

/-- A call the downstream handler makes on the response writer. -/
inductive WriteEvent where
  | writeHeader (code : Nat)
  | write (n : Nat)
deriving DecidableEq, Repr

/-- The observable fields of `httpx.StatusWriter` (`Status`, `Bytes`),
zero-valued on creation. -/
structure StatusWriterState where
  status : Nat
  bytes : Nat
deriving DecidableEq, Repr

def swInit : StatusWriterState := ⟨0, 0⟩

/-- `StatusWriter.WriteHeader` records the code; `StatusWriter.Write` of
`n` bytes defaults a still-unset status to 200 and accumulates the count. -/
def swStep (w : StatusWriterState) : WriteEvent → StatusWriterState
  | .writeHeader code => { w with status := code }
  | .write n =>
      { w with status := if w.status = 0 then 200 else w.status, bytes := w.bytes + n }

def swRun (events : List WriteEvent) : StatusWriterState :=
  events.foldl swStep swInit

/-- The status the `CircuitBreak` middleware feeds to the breaker
(lines 268-272): a never-written status (0) is treated as 200. -/
def breakerObservedStatus (captured : Nat) : Nat :=
  if captured = 0 then 200 else captured

/-- The completion bookkeeping of `CircuitBreak`: success iff the observed
status is below 500. -/
def circuitBreakComplete (b : CircuitBreaker) (captured : Nat) (now : Int) :
    CircuitBreaker :=
  doneLocked b (decide (breakerObservedStatus captured < 500)) now

/-! ## Claim C10: a handler that never writes counts as a success -/

/-- Claim C10 (implicit): when the admitted downstream handler completes
without writing anything, the captured status is 0, which `CircuitBreak`
normalizes to 200 (< 500) and therefore classifies as a success: in CLOSED
the failure counter is reset, and in HALF_OPEN the probe closes the
breaker. -/
theorem unwritten_status_is_success (b : CircuitBreaker) (now : Int)
    (he : b.cfg.enabled = true) :
    (swRun []).status = 0 ∧
    breakerObservedStatus 0 = 200 ∧
    circuitBreakComplete b 0 now = doneLocked b true now ∧
    (b.state = .closed →
        (circuitBreakComplete b 0 now).state = .closed ∧
        (circuitBreakComplete b 0 now).fails = 0) ∧
    (b.state = .halfOpen →
        (circuitBreakComplete b 0 now).state = .closed ∧
        (circuitBreakComplete b 0 now).fails = 0) := by
  obtain ⟨c, st, f, o, h⟩ := b
  simp only at he
  refine ⟨rfl, rfl, rfl, ?_, ?_⟩ <;> intro hst <;> simp only at hst <;> subst hst
  · constructor <;> simp [circuitBreakComplete, doneLocked, breakerObservedStatus, he]
  · constructor <;>
      simp [circuitBreakComplete, doneLocked, breakerObservedStatus, he]

/-- Witness for C10: a CLOSED breaker with two accumulated failures is
reset by a request that never wrote a status. -/
theorem unwritten_status_is_success_witness :
    (circuitBreakComplete ⟨⟨true, 3, 50, 1⟩, .closed, 2, 0, 0⟩ 0 77).fails = 0 :=
  ((unwritten_status_is_success ⟨⟨true, 3, 50, 1⟩, .closed, 2, 0, 0⟩ 77 rfl).2.2.2.1
    rfl).2

/-! ## Concurrency semaphore (mw.Semaphore) -/

/-- `mw.Semaphore`: `NewSemaphore` with a non-positive capacity leaves the
channel nil (gate disabled); otherwise the channel capacity is the
configured `maxInFlight`. `inUse` (the channel length) is tracked
separately as the mutable part. -/
structure Semaphore where
  enabled : Bool
  cap : Nat
deriving DecidableEq, Repr

def NewSemaphore (maxInFlight : Int) : Semaphore :=
  if maxInFlight ≤ 0 then ⟨false, 0⟩ else ⟨true, maxInFlight.toNat⟩

/-- `Semaphore.TryAcquire`: a disabled semaphore admits unconditionally;
otherwise the non-blocking channel send succeeds exactly when the channel
is not full. Returns (admitted, new `inUse`). -/
def semTryAcquire (s : Semaphore) (inUse : Nat) : Bool × Nat :=
  if s.enabled = false then (true, inUse)
  else if inUse < s.cap then (true, inUse + 1)
  else (false, inUse)

/-- `Semaphore.Release`: the non-blocking receive decrements `inUse` when
positive and is a no-op otherwise. -/
def semRelease (s : Semaphore) (inUse : Nat) : Nat :=
  if s.enabled = false then inUse
  else if inUse > 0 then inUse - 1 else inUse

inductive SemOp where
  | tryAcquire
  | release
deriving DecidableEq, Repr

def semStep (s : Semaphore) (inUse : Nat) : SemOp → Nat
  | .tryAcquire => (semTryAcquire s inUse).2
  | .release => semRelease s inUse

def semRun (s : Semaphore) (inUse : Nat) (ops : List SemOp) : Nat :=
  ops.foldl (semStep s) inUse

lemma semStep_le (s : Semaphore) (inUse : Nat) (op : SemOp)
    (hle : inUse ≤ s.cap) : semStep s inUse op ≤ s.cap := by
  cases op <;> simp only [semStep, semTryAcquire, semRelease] <;>
    split_ifs <;> omega

lemma semRun_le (s : Semaphore) (ops : List SemOp) (inUse : Nat)
    (hle : inUse ≤ s.cap) : semRun s inUse ops ≤ s.cap := by
  induction ops generalizing inUse with
  | nil => exact hle
  | cons op rest ih => exact ih _ (semStep_le s inUse op hle)

/-! ## Claim C7: the semaphore never exceeds its capacity -/

/-- Claim C7: for a semaphore created with capacity `m > 0`, over every
sequence of TryAcquire/Release operations the number of held slots never
exceeds `m`; TryAcquire succeeds and increments `inUse` exactly when
`inUse < m`, and fails leaving `inUse` unchanged otherwise. -/
theorem semaphore_in_use_bounded (m : Int) (hm : 0 < m) (ops : List SemOp)
    (inUse : Nat) :
    (NewSemaphore m).cap = m.toNat ∧
    semRun (NewSemaphore m) 0 ops ≤ m.toNat ∧
    (inUse < m.toNat →
        semTryAcquire (NewSemaphore m) inUse = (true, inUse + 1)) ∧
    (inUse ≥ m.toNat →
        semTryAcquire (NewSemaphore m) inUse = (false, inUse)) := by
  have hne : ¬ (m ≤ 0) := by omega
  refine ⟨by simp [NewSemaphore, hne], ?_, ?_, ?_⟩
  · have := semRun_le (NewSemaphore m) ops 0 (by simp)
    simpa [NewSemaphore, hne] using this
  · intro hlt
    simp [NewSemaphore, hne, semTryAcquire, hlt]
  · intro hge
    have : ¬ (inUse < m.toNat) := by omega
    simp [NewSemaphore, hne, semTryAcquire, this]

/-- Witness for C7: a full semaphore of capacity 2 rejects the third
acquire. -/
theorem semaphore_in_use_bounded_witness :
    semTryAcquire (NewSemaphore 2) 2 = (false, 2) :=
  (semaphore_in_use_bounded 2 (by decide) [] 2).2.2.2 (by decide)

/-! ## Rate-limiter decision record (ratelimit.Decision) -/

/-- `ratelimit.Decision`. Go `float64` fields carried as rationals. -/
structure Decision where
  allowed : Bool
  retryAfterSeconds : Int
  remaining : ℚ
  limitRPS : ℚ
  burst : ℚ
deriving DecidableEq, Repr

/-! ## The per-route middleware pipeline (cmd/gateway/main.go) -/

/-- The request-side data the modelled stages consume or modify:
`contentLength` (-1 when unknown), the `MaxBytesReader` cap installed on
the body, and the authenticated subject injected by `WithSubject`
(subjects are abstracted to numeric tags). -/
structure Request where
  contentLength : Int
  bodyCapped : Option Int
  subject : Option Nat
deriving DecidableEq, Repr

/-- Response bodies the modelled stages can produce, by their JSON `error`
tag; upstream bodies are abstracted to numeric tags. -/
inductive Body where
  | unauthorizedBody
  | rateLimitedBody (retryAfterSeconds : Int)
  | tooLargeBody (maxBytes : Int)
  | tooBusyBody
  | circuitOpenBody
  | upstreamBody (tag : Nat)
deriving DecidableEq, Repr

/-- Response headers the modelled stages set (the route/scope echo headers
are collapsed into the rate-limit header record). -/
inductive Header where
  | rateLimitHdrs (rps burst : ℚ)
  | remainingHdr (remaining : ℚ)
  | retryAfterHdr (seconds : Int)
deriving DecidableEq, Repr

structure Response where
  status : Nat
  body : Body
  headers : List Header
deriving DecidableEq, Repr

/-- The mutable per-route state the pipeline touches: the circuit breaker
and the semaphore occupancy. -/
structure GwState where
  breaker : CircuitBreaker
  semInUse : Nat
deriving DecidableEq, Repr

def Handler : Type := Request → GwState → Response × GwState

/-- `mw.RequireAuth` (and the conditional wrapping
`if route.AuthRequired { h = mw.RequireAuth(...) }` in main.go):
a failed `ValidateBearer` yields 401 without invoking `next`; a success
injects the subject and continues. The validator's verdict for this
request is the parameter `authResult`. -/
def requireAuthMW (required : Bool) (authResult : Except Unit Nat)
    (next : Handler) : Handler :=
  if required = false then next
  else fun r s =>
    match authResult with
    | .error _ => ({ status := 401, body := .unauthorizedBody, headers := [] }, s)
    | .ok sub => next { r with subject := some sub } s

/-- `mw.MaxBodyBytes`: with a known oversized `Content-Length` the request
is rejected with 413 before `next` runs; otherwise the body is capped and
the request forwarded. -/
def maxBodyMW (limit : Int) (next : Handler) : Handler :=
  if limit ≤ 0 then next
  else fun r s =>
    if r.contentLength > limit ∧ r.contentLength ≠ -1 then
      ({ status := 413, body := .tooLargeBody limit, headers := [] }, s)
    else next { r with bodyCapped := some limit } s

/-- `mw.ConcurrencyLimit`: a failed `TryAcquire` yields 503 `too_busy`
without invoking `next`; otherwise the slot is held across `next` and
released afterwards. -/
def concurrencyMW (sem : Semaphore) (next : Handler) : Handler :=
  if sem.enabled = false then next
  else fun r s =>
    if (semTryAcquire sem s.semInUse).1 = false then
      ({ status := 503, body := .tooBusyBody, headers := [] }, s)
    else
      let (resp, s1) := next r { s with semInUse := (semTryAcquire sem s.semInUse).2 }
      (resp, { s1 with semInUse := semRelease sem s1.semInUse })

/-- `mw.CircuitBreak`: consult `allowLocked` at arrival time `nowA`; a
rejection yields 503 `circuit_open` (with a ceiling-seconds Retry-After
when positive); an admitted request runs `next` under a status-capturing
writer and feeds the observed status to `doneLocked` at completion time
`nowD`. -/
def circuitBreakMW (nowA nowD : Int) (next : Handler) : Handler :=
  fun r s =>
    if s.breaker.cfg.enabled = false then next r s
    else
      let (b1, allowed, retry) := allowLocked s.breaker nowA
      if allowed = false then
        ({ status := 503, body := .circuitOpenBody,
           headers :=
             if retry > 0 then [.retryAfterHdr ((retry + 999000000) / 1000000000)]
             else [] },
         { s with breaker := b1 })
      else
        let (resp, s1) := next r { s with breaker := b1 }
        (resp, { s1 with breaker := circuitBreakComplete s1.breaker resp.status nowD })

/-- Per-route rate-limit settings consumed by the middleware
(`mw.RateLimitConfig`, route/scope labels omitted). -/
structure RLConfig where
  enabled : Bool
  rps : ℚ
  burst : ℚ
deriving DecidableEq, Repr

/-- The X-RateLimit response headers written before the decision is acted
on; the remaining-token header is emitted only when positive. -/
def rlHeaders (cfg : RLConfig) (dec : Decision) : List Header :=
  [.rateLimitHdrs cfg.rps cfg.burst] ++
    (if dec.remaining > 0 then [.remainingHdr dec.remaining] else [])

/-- `mw.RateLimit` (the `internal/netx`-aware variant): disabled config
passes through; a backend error fails open, forwarding the request to
`next` untouched; a rejection yields 429 with Retry-After; an allowed
decision forwards to `next` and adds the rate-limit headers to the
response. The backend's verdict for this request's key is the parameter
`decResult`. -/
def rateLimitMW (cfg : RLConfig) (decResult : Except Unit Decision)
    (next : Handler) : Handler :=
  if cfg.enabled = false then next
  else fun r s =>
    match decResult with
    | .error _ => next r s
    | .ok dec =>
        if dec.allowed = false then
          ({ status := 429, body := .rateLimitedBody dec.retryAfterSeconds,
             headers := rlHeaders cfg dec ++ [.retryAfterHdr dec.retryAfterSeconds] }, s)
        else
          let (resp, s1) := next r s
          ({ resp with headers := rlHeaders cfg dec ++ resp.headers }, s1)

/-- The per-route chain composed in cmd/gateway/main.go (innermost proxy,
then CircuitBreak, ConcurrencyLimit, RequireAuth, RateLimit). The
`mw.MaxBodyBytes` stage is defined in the middleware package but not wired
in the gateway main; modelled from the spec: it is placed with the other
pre-breaker rejecting stages, as §2/§8 require the 413 rejection not to
reach the breaker. -/
def gatewayChain (rlCfg : RLConfig) (decResult : Except Unit Decision)
    (authRequired : Bool) (authResult : Except Unit Nat)
    (bodyLimit : Int) (sem : Semaphore) (nowA nowD : Int)
    (proxyH : Handler) : Handler :=
  rateLimitMW rlCfg decResult
    (requireAuthMW authRequired authResult
      (maxBodyMW bodyLimit
        (concurrencyMW sem
          (circuitBreakMW nowA nowD proxyH))))

/-- The rate-limit stage does not short-circuit the request: it is
disabled, errored (fail-open), or produced an allowing decision. -/
def RlAdmits (cfg : RLConfig) (decResult : Except Unit Decision) : Prop :=
  cfg.enabled = false ∨ decResult = .error () ∨
    ∃ dec, decResult = .ok dec ∧ dec.allowed = true

/-- The auth stage does not short-circuit: not required, or validated. -/
def AuthAdmits (required : Bool) (authResult : Except Unit Nat) : Prop :=
  required = false ∨ ∃ sub, authResult = .ok sub

/-- The body-size stage does not short-circuit. -/
def BodyAdmits (limit : Int) (r : Request) : Prop :=
  limit ≤ 0 ∨ ¬ (r.contentLength > limit ∧ r.contentLength ≠ -1)

lemma rl_passthrough (cfg : RLConfig) (decRes : Except Unit Decision)
    (next : Handler) (r : Request) (s : GwState) (h : RlAdmits cfg decRes) :
    (rateLimitMW cfg decRes next r s).2 = (next r s).2 ∧
    (rateLimitMW cfg decRes next r s).1.status = (next r s).1.status ∧
    (rateLimitMW cfg decRes next r s).1.body = (next r s).1.body := by
  rcases hres : next r s with ⟨resp, s1⟩
  rcases h with h | h | ⟨dec, hdec, hall⟩
  · simp [rateLimitMW, h, hres]
  · subst h
    cases henabled : cfg.enabled <;> simp [rateLimitMW, henabled, hres]
  · subst hdec
    cases henabled : cfg.enabled <;> simp [rateLimitMW, henabled, hall, hres]

lemma auth_passthrough (required : Bool) (authRes : Except Unit Nat)
    (next : Handler) (r : Request) (s : GwState)
    (h : AuthAdmits required authRes) :
    ∃ r', r'.contentLength = r.contentLength ∧
      requireAuthMW required authRes next r s = next r' s := by
  rcases h with h | ⟨sub, hsub⟩
  · exact ⟨r, rfl, by simp [requireAuthMW, h]⟩
  · subst hsub
    cases hreq : required
    · exact ⟨r, rfl, by simp [requireAuthMW]⟩
    · exact ⟨{ r with subject := some sub }, rfl, by simp [requireAuthMW]⟩

lemma body_passthrough (limit : Int) (next : Handler) (r : Request)
    (s : GwState) (h : BodyAdmits limit r) :
    ∃ r', maxBodyMW limit next r s = next r' s := by
  rcases h with h | h
  · exact ⟨r, by simp [maxBodyMW, h]⟩
  · by_cases hle : limit ≤ 0
    · exact ⟨r, by simp [maxBodyMW, hle]⟩
    · exact ⟨{ r with bodyCapped := some limit }, by simp [maxBodyMW, hle, h]⟩

/-! ## Claim C5: pre-breaker rejections leave the breaker untouched -/

/-- Claim C5: in the composed per-route chain, a request rejected by a
stage that runs before the circuit breaker — 401 from authentication, 429
from the rate limiter, 413 from the body-size cap, 503 `too_busy` from the
concurrency gate — produces its rejection status with the whole mutable
route state (in particular every breaker field) exactly as it was. -/
theorem pre_breaker_rejections_preserve_breaker (rlCfg : RLConfig)
    (decRes : Except Unit Decision) (authRequired : Bool)
    (authRes : Except Unit Nat) (bodyLimit : Int) (sem : Semaphore)
    (nowA nowD : Int) (proxyH : Handler) (r : Request) (s : GwState) :
    (∀ dec, rlCfg.enabled = true → decRes = .ok dec → dec.allowed = false →
      (gatewayChain rlCfg decRes authRequired authRes bodyLimit sem nowA nowD proxyH r s).1.status = 429 ∧
      (gatewayChain rlCfg decRes authRequired authRes bodyLimit sem nowA nowD proxyH r s).2.breaker = s.breaker) ∧
    (RlAdmits rlCfg decRes → authRequired = true → authRes = .error () →
      (gatewayChain rlCfg decRes authRequired authRes bodyLimit sem nowA nowD proxyH r s).1.status = 401 ∧
      (gatewayChain rlCfg decRes authRequired authRes bodyLimit sem nowA nowD proxyH r s).2.breaker = s.breaker) ∧
    (RlAdmits rlCfg decRes → AuthAdmits authRequired authRes →
      bodyLimit > 0 → r.contentLength > bodyLimit → r.contentLength ≠ -1 →
      (gatewayChain rlCfg decRes authRequired authRes bodyLimit sem nowA nowD proxyH r s).1.status = 413 ∧
      (gatewayChain rlCfg decRes authRequired authRes bodyLimit sem nowA nowD proxyH r s).2.breaker = s.breaker) ∧
    (RlAdmits rlCfg decRes → AuthAdmits authRequired authRes →
      BodyAdmits bodyLimit r → sem.enabled = true → s.semInUse ≥ sem.cap →
      (gatewayChain rlCfg decRes authRequired authRes bodyLimit sem nowA nowD proxyH r s).1.status = 503 ∧
      (gatewayChain rlCfg decRes authRequired authRes bodyLimit sem nowA nowD proxyH r s).1.body = .tooBusyBody ∧
      (gatewayChain rlCfg decRes authRequired authRes bodyLimit sem nowA nowD proxyH r s).2.breaker = s.breaker) := by
  refine ⟨?_, ?_, ?_, ?_⟩
  · intro dec hen hdec hall
    subst hdec
    constructor <;> simp [gatewayChain, rateLimitMW, hen, hall]
  · intro hrl hreq herr
    subst hreq herr
    obtain ⟨h2, h1, _⟩ := rl_passthrough rlCfg decRes
      (requireAuthMW true (.error ())
        (maxBodyMW bodyLimit (concurrencyMW sem (circuitBreakMW nowA nowD proxyH))))
      r s hrl
    rw [gatewayChain, h2, h1]
    constructor <;> simp [requireAuthMW]
  · intro hrl hauth hpos hgt hne
    obtain ⟨r', hlen, hae⟩ := auth_passthrough authRequired authRes
      (maxBodyMW bodyLimit (concurrencyMW sem (circuitBreakMW nowA nowD proxyH))) r s hauth
    obtain ⟨h2, h1, _⟩ := rl_passthrough rlCfg decRes
      (requireAuthMW authRequired authRes
        (maxBodyMW bodyLimit (concurrencyMW sem (circuitBreakMW nowA nowD proxyH))))
      r s hrl
    rw [gatewayChain, h2, h1, hae]
    have hle : ¬ (bodyLimit ≤ 0) := by omega
    constructor <;> simp [maxBodyMW, hle, hlen, hgt, hne]
  · intro hrl hauth hbody hsen hfull
    obtain ⟨r', hlen, hae⟩ := auth_passthrough authRequired authRes
      (maxBodyMW bodyLimit (concurrencyMW sem (circuitBreakMW nowA nowD proxyH))) r s hauth
    obtain ⟨h2, h1, hbd⟩ := rl_passthrough rlCfg decRes
      (requireAuthMW authRequired authRes
        (maxBodyMW bodyLimit (concurrencyMW sem (circuitBreakMW nowA nowD proxyH))))
      r s hrl
    have hbody' : BodyAdmits bodyLimit r' := by
      unfold BodyAdmits at *
      rw [hlen]
      exact hbody
    obtain ⟨r'', hbe⟩ := body_passthrough bodyLimit
      (concurrencyMW sem (circuitBreakMW nowA nowD proxyH)) r' s hbody'
    have hrej : (semTryAcquire sem s.semInUse).1 = false := by
      have : ¬ (s.semInUse < sem.cap) := by omega
      simp [semTryAcquire, hsen, this]
    rw [gatewayChain, h2, h1, hbd, hae, hbe]
    refine ⟨?_, ?_, ?_⟩ <;> simp [concurrencyMW, hsen, hrej]

/-- Witness for C5: a concrete chain rejecting at the concurrency gate
leaves a concrete mid-flight breaker untouched. -/
theorem pre_breaker_rejections_preserve_breaker_witness :
    (gatewayChain ⟨true, 1, 2⟩ (.ok ⟨true, 0, 1, 1, 2⟩) true (.ok 9) 1024
        (NewSemaphore 1) 0 0
        (fun _ s => (⟨200, .upstreamBody 0, []⟩, s)) ⟨10, none, none⟩
        ⟨⟨⟨true, 3, 50, 1⟩, .closed, 2, 0, 0⟩, 1⟩).2.breaker =
      ⟨⟨true, 3, 50, 1⟩, .closed, 2, 0, 0⟩ :=
  ((pre_breaker_rejections_preserve_breaker ⟨true, 1, 2⟩ (.ok ⟨true, 0, 1, 1, 2⟩)
      true (.ok 9) 1024 (NewSemaphore 1) 0 0
      (fun _ s => (⟨200, .upstreamBody 0, []⟩, s)) ⟨10, none, none⟩
      ⟨⟨⟨true, 3, 50, 1⟩, .closed, 2, 0, 0⟩, 1⟩).2.2.2
    (Or.inr (Or.inr ⟨⟨true, 0, 1, 1, 2⟩, rfl, rfl⟩))
    (Or.inr ⟨9, rfl⟩)
    (Or.inr (by decide))
    (by decide) (by decide)).2.2

/-! ## Claim C3: limiter backend errors fail open -/

/-- Claim C3: when the limiter backend's Allow call errors, the rate-limit
middleware forwards the unaltered request to `next` and returns `next`'s
result untouched (so no 429 and no rejection body), and its outcome agrees
with the allowed case in status, body and resulting state (the allowed
case only adds the X-RateLimit headers). -/
theorem limiter_error_fails_open (cfg : RLConfig) (next : Handler)
    (r : Request) (s : GwState) (dec : Decision)
    (he : cfg.enabled = true) (ha : dec.allowed = true) :
    rateLimitMW cfg (.error ()) next r s = next r s ∧
    (rateLimitMW cfg (.error ()) next r s).1.status =
      (rateLimitMW cfg (.ok dec) next r s).1.status ∧
    (rateLimitMW cfg (.error ()) next r s).1.body =
      (rateLimitMW cfg (.ok dec) next r s).1.body ∧
    (rateLimitMW cfg (.error ()) next r s).2 =
      (rateLimitMW cfg (.ok dec) next r s).2 := by
  rcases hres : next r s with ⟨resp, s1⟩
  refine ⟨?_, ?_, ?_, ?_⟩ <;> simp [rateLimitMW, he, ha, hres]

/-- Witness for C3 at a concrete handler and state. -/
theorem limiter_error_fails_open_witness :
    rateLimitMW ⟨true, 1, 2⟩ (.error ())
        (fun _ s => (⟨204, .upstreamBody 3, []⟩, s)) ⟨5, none, none⟩
        ⟨⟨⟨false, 0, 0, 0⟩, .closed, 0, 0, 0⟩, 0⟩ =
      ((⟨204, .upstreamBody 3, []⟩ : Response),
        (⟨⟨⟨false, 0, 0, 0⟩, .closed, 0, 0, 0⟩, 0⟩ : GwState)) :=
  (limiter_error_fails_open ⟨true, 1, 2⟩
      (fun _ s => (⟨204, .upstreamBody 3, []⟩, s)) ⟨5, none, none⟩
      ⟨⟨⟨false, 0, 0, 0⟩, .closed, 0, 0, 0⟩, 0⟩ ⟨true, 0, 1, 1, 2⟩ rfl rfl).1

/-! ## Router (internal/proxy/router.go)

`New` sorts the route slice by descending `len(PathPrefix)` with Go's
`sort.Slice`, whose ordering among elements the comparator considers equal
is unspecified (the Go sort is not guaranteed stable). The sort is
therefore embedded as a relation: any permutation of the input that is
non-increasing in prefix length is a possible route table. -/

/-- A route as the router consumes it: a numeric name tag (names are
abstract labels here) and the `PathPrefix` field, as a character list
(field named `pathPat`). -/
structure Route where
  name : Nat
  pathPat : List Char
deriving DecidableEq, Repr

/-- `strings.HasPrefix(s, pat)`. -/
def hasPre : List Char → List Char → Bool
  | _, [] => true
  | [], _ :: _ => false
  | c :: s, d :: pat => c == d && hasPre s pat

/-- The table ordering `New` establishes: non-increasing prefix length. -/
def SortedByLen (l : List Route) : Prop :=
  l.Pairwise (fun a b => b.pathPat.length ≤ a.pathPat.length)

/-- `table` is a possible result of `New(input)` (ignoring the empty-input
error path): a permutation of the input routes, sorted by descending
prefix length. -/
def RouterNew (input table : List Route) : Prop :=
  List.Perm table input ∧ SortedByLen table

/-- `Router.Match`: first route in the sorted table whose prefix matches. -/
def matchRoute : List Route → List Char → Option Route
  | [], _ => none
  | rt :: rest, p => if hasPre p rt.pathPat then some rt else matchRoute rest p

/-- The route the spec's words designate (declaration-order input):
the earliest-declared route of maximal matching prefix length. -/
def specMatch (input : List Route) (p : List Char) : Option Route :=
  input.foldl
    (fun acc rt =>
      if hasPre p rt.pathPat then
        match acc with
        | none => some rt
        | some best =>
            if rt.pathPat.length > best.pathPat.length then some rt else acc
      else acc)
    none

/-- Claim C4 as stated: on every non-empty table, `match` agrees with the
spec's longest-prefix, declaration-order-tie-break description. -/
def RouterMatchesSpecClaim : Prop :=
  ∀ (input table : List Route) (p : List Char),
    input ≠ [] → RouterNew input table → matchRoute table p = specMatch input p

lemma matchRoute_eq_none (l : List Route) (p : List Char) :
    matchRoute l p = none ↔ ∀ rt ∈ l, hasPre p rt.pathPat = false := by
  induction l with
  | nil => simp [matchRoute]
  | cons rt rest ih =>
      by_cases h : hasPre p rt.pathPat
      · simp [matchRoute, h]
      · rw [Bool.not_eq_true] at h
        simp [matchRoute, h, ih, List.forall_mem_cons]

lemma matchRoute_eq_some (l : List Route) (p : List Char) (rt : Route)
    (h : matchRoute l p = some rt) :
    rt ∈ l ∧ hasPre p rt.pathPat = true := by
  induction l with
  | nil => simp [matchRoute] at h
  | cons x rest ih =>
      by_cases hx : hasPre p x.pathPat
      · simp only [matchRoute, hx, if_true, Option.some.injEq] at h
        subst h
        exact ⟨List.mem_cons_self _ _, hx⟩
      · simp only [matchRoute, hx, if_false] at h
        obtain ⟨hm, hp⟩ := ih h
        exact ⟨List.mem_cons_of_mem _ hm, hp⟩

lemma matchRoute_max (l : List Route) (p : List Char) (rt : Route)
    (hs : SortedByLen l) (h : matchRoute l p = some rt) :
    ∀ rt' ∈ l, hasPre p rt'.pathPat = true →
      rt'.pathPat.length ≤ rt.pathPat.length := by
  induction l with
  | nil => simp [matchRoute] at h
  | cons x rest ih =>
      rw [SortedByLen, List.pairwise_cons] at hs
      obtain ⟨hx, hrest⟩ := hs
      by_cases hm : hasPre p x.pathPat
      · simp only [matchRoute, hm, if_true, Option.some.injEq] at h
        subst h
        intro rt' hrt' _
        rcases List.mem_cons.mp hrt' with h' | h'
        · subst h'
          exact le_refl _
        · exact hx rt' h'
      · simp only [matchRoute, hm, if_false] at h
        intro rt' hrt' hp
        rcases List.mem_cons.mp hrt' with h' | h'
        · subst h'
          simp [hm] at hp
        · exact ih hrest h rt' h' hp

/-! ## Claim C4 (corrected): longest-prefix match, tie order unspecified -/

/-- Counterexample to claim C4 as stated: two routes with the same prefix
`"/x"`; the reversed order is also a valid `sort.Slice` outcome (the Go
sort is not guaranteed stable), and on it `match` returns the
later-declared route, not the declaration-order winner the spec
prescribes. -/
theorem router_tie_break_counterexample : ¬ RouterMatchesSpecClaim := by
  intro hclaim
  have h := hclaim
    [⟨0, ['/', 'x']⟩, ⟨1, ['/', 'x']⟩]
    [⟨1, ['/', 'x']⟩, ⟨0, ['/', 'x']⟩]
    ['/', 'x']
    (by simp)
    ⟨List.Perm.swap _ _ _, by simp [SortedByLen]⟩
  simp [matchRoute, specMatch, hasPre] at h

/-- Claim C4 (amended): for every table produced by `New` from the input
routes, `match(p)` returns `none` exactly when no input route's prefix is
a prefix of `p`, and otherwise returns an input route whose prefix matches
`p` and has maximal length among all matching routes; which route of
maximal length is returned on ties is left to the unspecified (unstable)
sort order, not necessarily declaration order. -/
theorem router_longest_match (input table : List Route) (p : List Char)
    (ht : RouterNew input table) :
    (matchRoute table p = none ↔ ∀ rt ∈ input, hasPre p rt.pathPat = false) ∧
    (∀ rt, matchRoute table p = some rt →
      rt ∈ input ∧ hasPre p rt.pathPat = true ∧
      ∀ rt' ∈ input, hasPre p rt'.pathPat = true →
        rt'.pathPat.length ≤ rt.pathPat.length) := by
  obtain ⟨hperm, hsort⟩ := ht
  constructor
  · rw [matchRoute_eq_none]
    constructor
    · intro hall rt hrt
      exact hall rt (hperm.mem_iff.mpr hrt)
    · intro hall rt hrt
      exact hall rt (hperm.mem_iff.mp hrt)
  · intro rt h
    obtain ⟨hm, hp⟩ := matchRoute_eq_some table p rt h
    refine ⟨hperm.mem_iff.mp hm, hp, ?_⟩
    intro rt' hrt' hp'
    exact matchRoute_max table p rt hsort h rt' (hperm.mem_iff.mpr hrt') hp'

/-- Witness for the amended C4 on the two-route table of the test suite
(`/api/` and `/api/users/`): the longer prefix wins. -/
theorem router_longest_match_witness :
    matchRoute
        [⟨1, ['/', 'a', 'p', 'i', '/', 'u', '/']⟩, ⟨0, ['/', 'a', 'p', 'i', '/']⟩]
        ['/', 'a', 'p', 'i', '/', 'u', '/', 'm'] =
      some ⟨1, ['/', 'a', 'p', 'i', '/', 'u', '/']⟩ ∧
    (⟨1, ['/', 'a', 'p', 'i', '/', 'u', '/']⟩ : Route) ∈
      [(⟨0, ['/', 'a', 'p', 'i', '/']⟩ : Route), ⟨1, ['/', 'a', 'p', 'i', '/', 'u', '/']⟩] := by
  refine ⟨by decide, ?_⟩
  exact ((router_longest_match
      [⟨0, ['/', 'a', 'p', 'i', '/']⟩, ⟨1, ['/', 'a', 'p', 'i', '/', 'u', '/']⟩]
      [⟨1, ['/', 'a', 'p', 'i', '/', 'u', '/']⟩, ⟨0, ['/', 'a', 'p', 'i', '/']⟩]
      ['/', 'a', 'p', 'i', '/', 'u', '/', 'm']
      ⟨List.Perm.swap _ _ _, by simp [SortedByLen]⟩).2
    ⟨1, ['/', 'a', 'p', 'i', '/', 'u', '/']⟩ (by decide)).1

/-! ## CIDR set (internal/netx/cidrset.go) and client-IP resolver
(the `internal/netx`-aware `mw.IPResolver`) -/

/-- One parsed `*net.IPNet`: IPv4 addresses as 32-bit naturals; `base` is
the (pre-masked) network address, `bits` the mask length. Membership
compares the top `bits` bits, as `IPNet.Contains` does by masking. -/
structure CIDR where
  base : Nat
  bits : Nat
deriving DecidableEq, Repr

def cidrContains (c : CIDR) (ip : Nat) : Bool :=
  ip / 2 ^ (32 - c.bits) == c.base / 2 ^ (32 - c.bits)

/-- `CIDRSet.Contains`: false on a nil/empty set, else any member network
contains the address (the nil-IP guard is the `none` case of the caller's
`remoteIP`). -/
def cidrSetContains (s : List CIDR) (ip : Nat) : Bool :=
  s.any (fun c => cidrContains c ip)

/-- The inputs `IPResolver.ClientIP` reads, pre-parsed: `remoteIP` is
`parseRemoteIP(req.RemoteAddr)`, `xffFirstIP` the parsed leftmost
`X-Forwarded-For` entry (`none` when the header is absent or its first
entry unparseable), `xRealIP` the parsed `X-Real-Ip` header. -/
structure IPRequest where
  remoteIP : Option Nat
  xffFirstIP : Option Nat
  xRealIP : Option Nat
deriving DecidableEq, Repr

/-- The resolver's result: a parsed IP, or the raw `RemoteAddr` string
when it did not parse. -/
inductive ClientAddr where
  | ip (v : Nat)
  | rawRemoteAddr
deriving DecidableEq, Repr

/-- The common tail of `ClientIP` (lines 45-48). -/
def fallbackAddr (req : IPRequest) : ClientAddr :=
  match req.remoteIP with
  | some rip => .ip rip
  | none => .rawRemoteAddr

/-- `IPResolver.ClientIP` (lines 27-49): forwarded headers are consulted
only when the peer parsed and a configured trusted set contains it. -/
def clientIP (trusted : Option (List CIDR)) (req : IPRequest) : ClientAddr :=
  let useForwarded :=
    match req.remoteIP, trusted with
    | some rip, some ts => cidrSetContains ts rip
    | _, _ => false
  if useForwarded = true then
    match req.xffFirstIP with
    | some v => .ip v
    | none =>
        match req.xRealIP with
        | some v => .ip v
        | none => fallbackAddr req
  else fallbackAddr req

/-! ## Claim C9: untrusted peers cannot spoof the client IP -/

/-- Claim C9: when the immediate peer is not contained in the configured
trusted set — in particular when no trusted set is configured, or the peer
address does not parse — the resolved client IP does not depend on the
X-Forwarded-For and X-Real-Ip headers: two requests agreeing on
`RemoteAddr` resolve identically, namely to the IP parsed from
`RemoteAddr` (or the raw address when unparseable). -/
theorem untrusted_peer_ignores_forwarded_headers
    (trusted : Option (List CIDR)) (r1 r2 : IPRequest)
    (hsame : r1.remoteIP = r2.remoteIP)
    (huntrusted : ∀ rip ts, r1.remoteIP = some rip → trusted = some ts →
      cidrSetContains ts rip = false) :
    clientIP trusted r1 = clientIP trusted r2 ∧
    clientIP trusted r1 = fallbackAddr r1 ∧
    (∀ rip, r1.remoteIP = some rip → clientIP trusted r1 = .ip rip) := by
  obtain ⟨rem1, xff1, xr1⟩ := r1
  obtain ⟨rem2, xff2, xr2⟩ := r2
  simp only at hsame
  subst hsame
  cases rem1 with
  | none =>
      cases trusted <;> simp [clientIP, fallbackAddr]
  | some rip =>
      cases trusted with
      | none => simp [clientIP, fallbackAddr]
      | some ts =>
          have h := huntrusted rip ts rfl rfl
          simp [clientIP, fallbackAddr, h]

/-- Witness for C9: a peer outside 10.0.0.0/8 (192.168.1.5, as in the
resolver's test) with a spoofed X-Forwarded-For resolves to the peer
address, exactly as the same request without the header. -/
theorem untrusted_peer_ignores_forwarded_headers_witness :
    clientIP (some [⟨167772160, 8⟩]) ⟨some 3232235781, some 3405803785, none⟩ =
      .ip 3232235781 :=
  (untrusted_peer_ignores_forwarded_headers (some [⟨167772160, 8⟩])
      ⟨some 3232235781, some 3405803785, none⟩
      ⟨some 3232235781, none, none⟩ rfl
      (by
        intro rip ts h1 h2
        cases h1
        cases h2
        decide)).2.2 3232235781 rfl

/-! ## Startup config validation (cmd/gateway/main.go, validateConfig)

Strings in the config are abstracted: route names to `Option Nat` (`none`
is the empty name), upstream URLs to an emptiness flag plus the
`url.Parse` verdict, rate-limit scopes to the outcome of the lowercase
comparison, and error messages to tags. The path prefix is kept as a
character list so the rooted-path check is the real check. -/

inductive RLScope where
  | ipScope
  | userScope
  | emptyScope
  | otherScope
deriving DecidableEq, Repr

structure RouteRLSettings where
  enabled : Bool
  rps : ℚ
  burst : ℚ
  scope : RLScope
deriving DecidableEq, Repr

/-- `config.RouteCircuitBreaker`. -/
structure RouteBreakerSettings where
  enabled : Bool
  failureThreshold : Int
  openSeconds : Int
  halfOpenMaxInFlight : Int
deriving DecidableEq, Repr

structure RouteSettings where
  name : Option Nat
  pathPat : List Char
  upstreamEmpty : Bool
  upstreamParses : Bool
  rateLimit : RouteRLSettings
  maxInFlight : Int
  cb : RouteBreakerSettings
deriving DecidableEq, Repr

structure GatewayConfig where
  addrEmpty : Bool
  routes : List RouteSettings
deriving DecidableEq, Repr

inductive ConfigError where
  | addrRequired
  | noRoutes
  | nameRequired
  | dupName
  | badPathPat
  | upstreamRequired
  | upstreamInvalid
  | rlBadRpsOrBurst
  | rlBadScope
  | negMaxInFlight
  | cbBadThreshold
  | cbBadOpenSeconds
  | cbBadHalfOpenMax
deriving DecidableEq, Repr

/-- The per-route body of the `validateConfig` loop, after the name and
duplicate checks (lines 412-446). -/
def validateRouteChecks (r : RouteSettings) : Except ConfigError Unit :=
  if r.pathPat = [] then .error .badPathPat
  else if hasPre r.pathPat ['/'] = false then .error .badPathPat
  else if r.upstreamEmpty = true then .error .upstreamRequired
  else if r.upstreamParses = false then .error .upstreamInvalid
  else if r.rateLimit.enabled = true ∧ (r.rateLimit.rps ≤ 0 ∨ r.rateLimit.burst ≤ 0) then
    .error .rlBadRpsOrBurst
  else if r.rateLimit.enabled = true ∧ r.rateLimit.scope = .otherScope then
    .error .rlBadScope
  else if r.maxInFlight < 0 then .error .negMaxInFlight
  else if r.cb.enabled = true ∧ r.cb.failureThreshold ≤ 0 then .error .cbBadThreshold
  else if r.cb.enabled = true ∧ r.cb.openSeconds ≤ 0 then .error .cbBadOpenSeconds
  else if r.cb.enabled = true ∧ r.cb.halfOpenMaxInFlight ≤ 0 then .error .cbBadHalfOpenMax
  else .ok ()

/-- The route loop with its `seenNames` set. -/
def validateRoutes : List Nat → List RouteSettings → Except ConfigError Unit
  | _, [] => .ok ()
  | seen, r :: rest =>
      match r.name with
      | none => .error .nameRequired
      | some n =>
          if n ∈ seen then .error .dupName
          else
            match validateRouteChecks r with
            | .error e => .error e
            | .ok _ => validateRoutes (n :: seen) rest

/-- `validateConfig` (the nil-config guard has no counterpart for a
by-value model). -/
def validateConfig (cfg : GatewayConfig) : Except ConfigError Unit :=
  if cfg.addrEmpty = true then .error .addrRequired
  else if cfg.routes = [] then .error .noRoutes
  else validateRoutes [] cfg.routes

set_option maxHeartbeats 1000000 in
lemma validateRouteChecks_ok_breaker (r : RouteSettings)
    (h : validateRouteChecks r = .ok ()) (he : r.cb.enabled = true) :
    0 < r.cb.failureThreshold ∧ 0 < r.cb.openSeconds ∧
      0 < r.cb.halfOpenMaxInFlight := by
  unfold validateRouteChecks at h
  split_ifs at h with h1 h2 h3 h4 h5 h6 h7 h8 h9 h10
  refine ⟨?_, ?_, ?_⟩ <;> by_contra hc <;> push_neg at hc
  · exact h8 ⟨he, hc⟩
  · exact h9 ⟨he, hc⟩
  · exact h10 ⟨he, hc⟩

lemma validateRoutes_ok (seen : List Nat) (routes : List RouteSettings)
    (h : validateRoutes seen routes = .ok ()) :
    ∀ r ∈ routes, validateRouteChecks r = .ok () := by
  induction routes generalizing seen with
  | nil => simp
  | cons r rest ih =>
      intro x hx
      unfold validateRoutes at h
      cases hn : r.name with
      | none => simp [hn] at h
      | some n =>
          simp only [hn] at h
          by_cases hmem : n ∈ seen
          · simp [hmem] at h
          · simp only [hmem, if_false] at h
            cases hv : validateRouteChecks r with
            | error e => simp [hv] at h
            | ok u =>
                simp only [hv] at h
                rcases List.mem_cons.mp hx with hx | hx
                · subst hx
                  cases u
                  exact hv
                · exact ih (n :: seen) h x hx

/-! ## Claim C8: invalid breaker settings never reach a running gateway -/

/-- Claim C8: a configuration in which some route enables the circuit
breaker with a non-positive `open_seconds` (or non-positive failure
threshold or half-open budget) is rejected by the gateway's startup
validation with an error, so it never reaches a running gateway. -/
theorem breaker_misconfig_rejected (cfg : GatewayConfig) (r : RouteSettings)
    (hmem : r ∈ cfg.routes) (hen : r.cb.enabled = true)
    (hbad : r.cb.openSeconds ≤ 0 ∨ r.cb.failureThreshold ≤ 0 ∨
      r.cb.halfOpenMaxInFlight ≤ 0) :
    ∃ e, validateConfig cfg = .error e := by
  cases hv : validateConfig cfg with
  | error e => exact ⟨e, rfl⟩
  | ok u =>
      exfalso
      cases u
      unfold validateConfig at hv
      split_ifs at hv with h1 h2
      have hall := validateRoutes_ok [] cfg.routes hv r hmem
      obtain ⟨p1, p2, p3⟩ := validateRouteChecks_ok_breaker r hall hen
      omega

/-- Witness for C8: a config whose single route enables the breaker with
`open_seconds = 0` is rejected. -/
theorem breaker_misconfig_rejected_witness :
    ∃ e, validateConfig
        ⟨false, [⟨some 1, ['/', 'a'], false, true, ⟨false, 0, 0, .emptyScope⟩, 0,
          ⟨true, 3, 0, 1⟩⟩]⟩ = .error e :=
  breaker_misconfig_rejected
    ⟨false, [⟨some 1, ['/', 'a'], false, true, ⟨false, 0, 0, .emptyScope⟩, 0,
      ⟨true, 3, 0, 1⟩⟩]⟩
    ⟨some 1, ['/', 'a'], false, true, ⟨false, 0, 0, .emptyScope⟩, 0, ⟨true, 3, 0, 1⟩⟩
    (by decide) rfl (by decide)

/-! ## Rate-limiter backends (internal/ratelimit)

Go `float64` values and timestamps are carried as rationals; on the
inputs considered the arithmetic the code performs is exact. The memory
backend delegates to the vendored golang.org/x/time/rate limiter, which is
not part of this repository's sources; its token bucket is modelled here
from that library (`NewLimiter` leaves `tokens` and `last` zero — the zero
`time.Time` — so the first advance refills from time zero). -/

/-- The hash the Lua script persists per key: `tokens` and `ts` (ms). -/
structure BucketState where
  tokens : ℚ
  ts : ℚ
deriving DecidableEq, Repr

/-- The refill step of the Lua script: elapsed milliseconds (clamped at 0)
convert to tokens at `rate` per second, capped at `burst`. -/
def redisRefill (r : BucketState) (nowMs rate burst : ℚ) : ℚ :=
  min burst (r.tokens + max 0 (nowMs - r.ts) / 1000 * rate)

/-- The atomic token-bucket script (`tokenBucketLua`): a fresh key starts
at `burst`; then allow iff `tokens ≥ cost`, deducting on allow; on reject
`retry_ms` is `floor(missing / rate × 1000)`, or 1000 when `rate ≤ 0`.
Returns (allowed, returned tokens, retry_ms, stored state). -/
def redisScript (st : Option BucketState) (nowMs rate burst cost : ℚ) :
    Bool × ℚ × Int × BucketState :=
  let tokens :=
    match st with
    | none => burst
    | some r => redisRefill r nowMs rate burst
  if cost ≤ tokens then (true, tokens - cost, 0, ⟨tokens - cost, nowMs⟩)
  else
    let missing := cost - tokens
    let retryMs : Int := if 0 < rate then ⌊missing / rate * 1000⌋ else 1000
    (false, tokens, retryMs, ⟨tokens, nowMs⟩)

/-- `RedisLimiter.Allow`: wraps the script result into a `Decision`,
with `Remaining` the script's token count and, on reject,
`RetryAfterSeconds = (retry_ms + 999) / 1000` (integer division). -/
def redisAllow (st : Option BucketState) (nowMs rps burst cost : ℚ) :
    Decision × BucketState :=
  let res := redisScript st nowMs rps burst cost
  ({ allowed := res.1
     retryAfterSeconds := if res.1 then 0 else (res.2.2.1 + 999) / 1000
     remaining := res.2.1
     limitRPS := rps
     burst := burst }, res.2.2.2)

/-- State of an x/time/rate `Limiter` bucket: `tokens` and the `last`
update time (seconds). Modelled from the vendored library. -/
structure RateLimiterState where
  tokens : ℚ
  last : ℚ
deriving DecidableEq, Repr

/-- `Limiter.advance`: tokens accumulate at `limit` per second since
`last` (a clock reading before `last` counts as zero elapsed), capped at
the burst. Modelled from the vendored library. -/
def rateAdvance (st : RateLimiterState) (now limit : ℚ) (burst : Int) : ℚ :=
  min (burst : ℚ) (st.tokens + (now - min st.last now) * limit)

/-- `Limiter.Allow` = `AllowN(now, 1)`: with a zero limit tokens never
refill and are only consumed; otherwise admit when, after refill, one
token is available and fits the burst. State changes only on success.
Modelled from the vendored library. -/
def rateAllow (st : RateLimiterState) (now limit : ℚ) (burst : Int) :
    Bool × RateLimiterState :=
  if limit = 0 then
    if 1 ≤ st.tokens then (true, ⟨st.tokens - 1, st.last⟩) else (false, st)
  else
    let tokens := rateAdvance st now limit burst
    if 1 ≤ burst ∧ 1 ≤ tokens then (true, ⟨tokens - 1, now⟩)
    else (false, st)

/-- The `for i := 0; i < int(cost)` loop of `MemoryLimiter.Allow`:
repeated `Allow` calls, stopping at the first refusal. -/
def memLoop (st : RateLimiterState) (now limit : ℚ) (burst : Int) :
    Nat → Bool × RateLimiterState
  | 0 => (true, st)
  | n + 1 =>
      let res := rateAllow st now limit burst
      if res.1 then memLoop res.2 now limit burst n else (false, res.2)

/-- `MemoryLimiter.Allow`: fetch or create the per-key entry
(`rate.NewLimiter(rate.Limit(rps), int(burst))`), run the cost loop, and
build a `Decision` whose `Remaining` is never set (0) and whose retry
hint, on reject, is the constant 1 second. -/
def memAllow (st : Option RateLimiterState) (now rps burst cost : ℚ) :
    Decision × RateLimiterState :=
  let entry : RateLimiterState :=
    match st with
    | none => ⟨0, 0⟩
    | some e => e
  let res := memLoop entry now rps ⌊burst⌋ (⌊cost⌋.toNat)
  ({ allowed := res.1
     retryAfterSeconds := if res.1 then 0 else 1
     remaining := 0
     limitRPS := rps
     burst := burst }, res.2)

/-! ## Claim C2: the two backends do not report the same decisions -/

/-- Counterexample to claim C2 as stated. With `rps = 1/2`, `burst = 1`,
`cost = 1` and two calls on a fresh key at the same instant (second 100 of
the clock both backends are driven by), both backends allow the first call
and reject the second, but: the memory backend reports remaining = 0 where
the redis backend reports the bucket's token count, and the rejected
call's retry-after is the constant 1 s in memory versus
`ceil(floor((cost − tokens)/rps · 1000 ms)) = 2 s` on redis — not the
common `ceil((cost − tokens)/rps)` formula the claim asserts for both. -/
theorem limiter_backends_differ_counterexample :
    (memAllow none 100 (1/2) 1 1).1.allowed
      = (redisAllow none 100000 (1/2) 1 1).1.allowed ∧
    (memAllow (some (memAllow none 100 (1/2) 1 1).2) 100 (1/2) 1 1).1.retryAfterSeconds = 1 ∧
    (redisAllow (some (redisAllow none 100000 (1/2) 1 1).2) 100000 (1/2) 1 1).1.retryAfterSeconds = 2 ∧
    (memAllow none 100 (1/2) 2 1).1.remaining = 0 ∧
    (redisAllow none 100000 (1/2) 2 1).1.remaining = 1 := by
  refine ⟨?_, ?_, ?_, ?_, ?_⟩ <;>
    norm_num [memAllow, memLoop, rateAllow, rateAdvance, redisAllow, redisScript,
      redisRefill, min_def, max_def]

/-! ## Amended C2: the backends agree on the allowed/rejected decision -/

/-- The decisions of a sequence of cost-1 calls on one key against the
memory backend, at call times in seconds. -/
def memRun (st : Option RateLimiterState) (rps burst : ℚ) : List ℚ → List Bool
  | [] => []
  | t :: ts =>
      (memAllow st t rps burst 1).1.allowed ::
        memRun (some (memAllow st t rps burst 1).2) rps burst ts

/-- The same call sequence against the redis backend (times in ms). -/
def redisRun (st : Option BucketState) (rps burst : ℚ) : List ℚ → List Bool
  | [] => []
  | t :: ts =>
      (redisAllow st (1000 * t) rps burst 1).1.allowed ::
        redisRun (some (redisAllow st (1000 * t) rps burst 1).2) rps burst ts

/-- A memory bucket and a redis bucket that refill to the same token count
at every instant from `tf` on. -/
def RefillEq (rps : ℚ) (B : ℕ) (tf : ℚ) (m : RateLimiterState)
    (r : BucketState) : Prop :=
  m.last ≤ tf ∧
  ∀ s, tf ≤ s →
    rateAdvance m s rps (B : Int) = redisRefill r (1000 * s) rps (B : ℚ)

lemma min_add_min (Bq a d : ℚ) (hd : 0 ≤ d) :
    min Bq (min Bq a + d) = min Bq (a + d) := by
  rcases le_total a Bq with h | h
  · rw [min_eq_right h]
  · rw [min_eq_left h, min_eq_left (by linarith), min_eq_left (by linarith)]

lemma memLoop_one (st : RateLimiterState) (now limit : ℚ) (burst : Int) :
    memLoop st now limit burst 1 = rateAllow st now limit burst := by
  rcases hres : rateAllow st now limit burst with ⟨ok, st'⟩
  cases ok <;> simp [memLoop, hres]

/-- One established call (`RefillEq` linking the states): the two backends
return the same allowed verdict and the successor states are again
refill-equivalent. -/
lemma backends_step (rps : ℚ) (hr : 0 < rps) (B : ℕ) (hB : 1 ≤ B)
    (tf t : ℚ) (ht : tf ≤ t) (m : RateLimiterState) (r : BucketState)
    (hrel : RefillEq rps B tf m r) :
    (memAllow (some m) t rps (B : ℚ) 1).1.allowed
      = (redisAllow (some r) (1000 * t) rps (B : ℚ) 1).1.allowed ∧
    RefillEq rps B t (memAllow (some m) t rps (B : ℚ) 1).2
      (redisAllow (some r) (1000 * t) rps (B : ℚ) 1).2 := by
  obtain ⟨hlast, heq⟩ := hrel
  have hrne : rps ≠ 0 := ne_of_gt hr
  have hBi : (1 : Int) ≤ (B : Int) := by exact_mod_cast hB
  have hfB : ⌊((B : ℕ) : ℚ)⌋ = (B : Int) := Int.floor_natCast B
  have hf1 : (⌊(1 : ℚ)⌋).toNat = 1 := by norm_num
  have hw : redisRefill r (1000 * t) rps (B : ℚ) = rateAdvance m t rps (B : Int) :=
    (heq t ht).symm
  by_cases hok : 1 ≤ rateAdvance m t rps (B : Int)
  · have hmem : memAllow (some m) t rps (B : ℚ) 1 =
        (⟨true, 0, 0, rps, (B : ℚ)⟩, ⟨rateAdvance m t rps (B : Int) - 1, t⟩) := by
      simp [memAllow, hfB, hf1, memLoop_one, rateAllow, hrne, hBi, hok]
    have hred : redisAllow (some r) (1000 * t) rps (B : ℚ) 1 =
        (⟨true, 0, rateAdvance m t rps (B : Int) - 1, rps, (B : ℚ)⟩,
          ⟨rateAdvance m t rps (B : Int) - 1, 1000 * t⟩) := by
      simp [redisAllow, redisScript, hw, hok]
    rw [hmem, hred]
    refine ⟨rfl, le_refl t, ?_⟩
    intro s hs
    rw [rateAdvance, redisRefill]
    simp only
    rw [min_eq_left hs, max_eq_right (by linarith : (0:ℚ) ≤ 1000 * s - 1000 * t)]
    congr 1
    ring
  · have hmem : memAllow (some m) t rps (B : ℚ) 1 =
        (⟨false, 1, 0, rps, (B : ℚ)⟩, m) := by
      simp [memAllow, hfB, hf1, memLoop_one, rateAllow, hrne, hBi, hok]
    have hnle : ¬ (1 : ℚ) ≤ redisRefill r (1000 * t) rps (B : ℚ) := by
      rw [hw]; exact hok
    have hred : (redisAllow (some r) (1000 * t) rps (B : ℚ) 1).1.allowed = false ∧
        (redisAllow (some r) (1000 * t) rps (B : ℚ) 1).2 =
          ⟨rateAdvance m t rps (B : Int), 1000 * t⟩ := by
      constructor <;> simp [redisAllow, redisScript, hw, hok]
    rw [hmem]
    refine ⟨hred.1.symm, ?_⟩
    rw [hred.2]
    refine ⟨hlast.trans ht, ?_⟩
    intro s hs
    have hls : m.last ≤ s := hlast.trans (ht.trans hs)
    have hc : (((B : Int)) : ℚ) = (B : ℚ) := by push_cast; ring
    rw [redisRefill]
    simp only
    rw [max_eq_right (by linarith : (0:ℚ) ≤ 1000 * s - 1000 * t)]
    rw [rateAdvance, min_eq_left hls]
    rw [rateAdvance, min_eq_left (hlast.trans ht)]
    have hD : (1000 * s - 1000 * t) / 1000 * rps = (s - t) * rps := by ring
    rw [hD, hc]
    rw [min_add_min ((B : ℕ) : ℚ) (m.tokens + (t - m.last) * rps)
      ((s - t) * rps) (mul_nonneg (by linarith) hr.le)]
    congr 1
    ring

/-- A fresh key: the first call fills both buckets to the burst (the
memory entry was created at the zero time, and the wall clock `t`
satisfies `B ≤ t·rps`), both allow, and the states end refill-equivalent. -/
lemma backends_first_step (rps : ℚ) (hr : 0 < rps) (B : ℕ) (hB : 1 ≤ B)
    (t : ℚ) (hclk : (B : ℚ) ≤ t * rps) :
    (memAllow none t rps (B : ℚ) 1).1.allowed = true ∧
    (redisAllow none (1000 * t) rps (B : ℚ) 1).1.allowed = true ∧
    RefillEq rps B t (memAllow none t rps (B : ℚ) 1).2
      (redisAllow none (1000 * t) rps (B : ℚ) 1).2 := by
  have hrne : rps ≠ 0 := ne_of_gt hr
  have hBi : (1 : Int) ≤ (B : Int) := by exact_mod_cast hB
  have hfB : ⌊((B : ℕ) : ℚ)⌋ = (B : Int) := Int.floor_natCast B
  have hf1 : (⌊(1 : ℚ)⌋).toNat = 1 := by norm_num
  have hB1 : (1 : ℚ) ≤ (B : ℚ) := by exact_mod_cast hB
  have ht0 : 0 ≤ t := by
    by_contra hneg
    push_neg at hneg
    nlinarith
  have hc : (((B : Int)) : ℚ) = (B : ℚ) := by push_cast; ring
  have hadv : rateAdvance ⟨0, 0⟩ t rps (B : Int) = (B : ℚ) := by
    rw [rateAdvance]
    simp only
    rw [min_eq_left ht0, hc]
    have he : (0 : ℚ) + (t - 0) * rps = t * rps := by ring
    rw [he]
    exact min_eq_left hclk
  have hok : (1 : ℚ) ≤ rateAdvance ⟨0, 0⟩ t rps (B : Int) := by
    rw [hadv]; exact hB1
  have hmem : memAllow none t rps (B : ℚ) 1 =
      (⟨true, 0, 0, rps, (B : ℚ)⟩, ⟨(B : ℚ) - 1, t⟩) := by
    simp [memAllow, hfB, hf1, memLoop_one, rateAllow, hrne, hBi, hB, hok, hadv]
  have hred : redisAllow none (1000 * t) rps (B : ℚ) 1 =
      (⟨true, 0, (B : ℚ) - 1, rps, (B : ℚ)⟩, ⟨(B : ℚ) - 1, 1000 * t⟩) := by
    simp [redisAllow, redisScript, hB1]
  rw [hmem, hred]
  refine ⟨rfl, rfl, le_refl t, ?_⟩
  intro s hs
  rw [rateAdvance, redisRefill]
  simp only
  rw [min_eq_left hs, max_eq_right (by linarith : (0:ℚ) ≤ 1000 * s - 1000 * t)]
  congr 1
  ring

lemma runs_agree_aux (rps : ℚ) (hr : 0 < rps) (B : ℕ) (hB : 1 ≤ B)
    (ts : List ℚ) (tf : ℚ) (hchain : List.Chain (· ≤ ·) tf ts)
    (m : RateLimiterState) (r : BucketState) (hrel : RefillEq rps B tf m r) :
    memRun (some m) rps (B : ℚ) ts = redisRun (some r) rps (B : ℚ) ts := by
  induction ts generalizing tf m r with
  | nil => rfl
  | cons t rest ih =>
      rw [List.chain_cons] at hchain
      obtain ⟨ht, hrest⟩ := hchain
      obtain ⟨hall, hrel'⟩ := backends_step rps hr B hB tf t ht m r hrel
      simp only [memRun, redisRun, hall]
      congr 1
      exact ih t hrest _ _ hrel'

/-- Claim C2 (amended): with a positive rate, an integer burst `B ≥ 1`
(the memory backend truncates the float burst to `int`), unit cost, and a
monotone sequence of call instants each late enough on the wall clock that
`B ≤ t·rps` (so the zero-time-created memory bucket is full on first use,
as the fresh redis key is), the two backends return identical
allowed/rejected verdicts for the whole sequence; the retry-after and
remaining fields they report differ as the counterexample shows. -/
theorem limiter_backends_agree_on_allowed (rps : ℚ) (hr : 0 < rps)
    (B : ℕ) (hB : 1 ≤ B) (times : List ℚ)
    (hchain : times.Chain' (· ≤ ·))
    (hclk : ∀ t ∈ times, (B : ℚ) ≤ t * rps) :
    memRun none rps (B : ℚ) times = redisRun none rps (B : ℚ) times := by
  cases times with
  | nil => rfl
  | cons t rest =>
      obtain ⟨hm, hrd, hrel⟩ :=
        backends_first_step rps hr B hB t (hclk t (by simp))
      simp only [memRun, redisRun, hm, hrd]
      congr 1
      exact runs_agree_aux rps hr B hB rest t hchain _ _ hrel

/-- Witness for the amended C2: three instantaneous calls at second 3 with
`rps = 1`, `burst = 2` produce the same verdict lists on both backends. -/
theorem limiter_backends_agree_on_allowed_witness :
    memRun none 1 ((2 : ℕ) : ℚ) [3, 3, 3] = redisRun none 1 ((2 : ℕ) : ℚ) [3, 3, 3] :=
  limiter_backends_agree_on_allowed 1 (by norm_num) 2 (by norm_num) [3, 3, 3]
    (List.Chain.cons le_rfl (List.Chain.cons le_rfl List.Chain.nil))
    (by
      intro t ht
      simp only [List.mem_cons, List.not_mem_nil, or_false] at ht
      rcases ht with rfl | rfl | rfl <;> norm_num)

end APIGW
